import Mathlib

/-!
Verification development for the better-db schema DSL and generator pipeline.

The TypeScript source is shallowly embedded:
JavaScript objects (insertion-ordered string-keyed maps) become association
lists, property assignment becomes objSet (replace in place, else append),
object spread merge becomes a left fold of objSet, and fallible code returns
Except.  Where the source tree ships several near-duplicate generations of a
module, each generation is embedded under a numbered name (table1, table2,
table3 for the three versions of table.ts).
-/

namespace BetterDb

/-! ## JavaScript object primitives

JS objects keep unique keys in insertion order.  Property read, property
write and spread-merge are embedded as operations on association lists:
property write replaces the value at an existing key in place, otherwise
appends the new binding at the end, exactly like JS assignment. -/

def objLookup (k : String) : List (String × α) → Option α
  | [] => none
  | e :: es => if e.1 = k then some e.2 else objLookup k es

def objKeys (m : List (String × α)) : List String :=
  m.map Prod.fst

def objHasKey (k : String) (m : List (String × α)) : Bool :=
  m.any (fun e => e.1 = k)

def objSet (m : List (String × α)) (k : String) (v : α) : List (String × α) :=
  if objHasKey k m then
    m.map (fun e => if e.1 = k then (k, v) else e)
  else
    m ++ [(k, v)]

/-- Spread-merge of two JS objects: keys of the first in order, then the new
keys of the second appended, the second's values winning key-for-key. -/
def objMerge (a b : List (String × α)) : List (String × α) :=
  b.foldl (fun m e => objSet m e.1 e.2) a

/-! ## Data model (core/src/types.ts and the better-auth DB field shape) -/

inductive DBFieldType where
  | string | number | boolean | date | json
  deriving DecidableEq, Repr

structure FieldReference where
  model : String
  field : String
  onDelete : String
  deriving DecidableEq, Repr

/-- A default value is either a literal or one of the two zero-argument
producer functions the field builder installs (a Date producer for date
fields, a numeric timestamp producer otherwise). -/
inductive DefaultValue where
  | val (s : String)
  | nowDate
  | nowNumber
  deriving DecidableEq, Repr

structure DBFieldAttribute where
  type : DBFieldType
  required : Option Bool := none
  unique : Option Bool := none
  primaryKey : Option Bool := none
  index : Option Bool := none
  defaultValue : Option DefaultValue := none
  references : Option FieldReference := none
  deriving DecidableEq, Repr

structure DbTable where
  modelName : String
  fields : List (String × DBFieldAttribute)
  deriving DecidableEq, Repr

structure DbPlugin where
  name : String
  schema : List (String × DbTable)
  deriving DecidableEq, Repr

/-! ## Plugin merge (core/src/plugin.ts, DefineDbResultImpl.use)

Source loop, for each entry of the plugin's schema object:
if the table already exists in the copied base map, bind the name to a new
table object spreading the base table with a fields map spreading base
fields then plugin fields; otherwise bind the plugin table verbatim. -/

structure DefineDbResult where
  schema : List (String × DbTable)
  plugins : List DbPlugin
  deriving DecidableEq, Repr

def mergeTables (bt pt : DbTable) : DbTable :=
  { bt with fields := objMerge bt.fields pt.fields }

def mergeStep (m : List (String × DbTable)) (e : String × DbTable) :
    List (String × DbTable) :=
  match objLookup e.1 m with
  | some bt => objSet m e.1 (mergeTables bt e.2)
  | none => objSet m e.1 e.2

def DefineDbResult.use (r : DefineDbResult) (p : DbPlugin) : DefineDbResult :=
  { schema := p.schema.foldl mergeStep r.schema,
    plugins := r.plugins ++ [p] }

/-- defineDb(schema, options?): starts from the bare registry and, when an
options-plugins list is given, folds DefineDbResult.use over it left to
right, exactly like the source's for-loop. -/
def defineDb (schema : List (String × DbTable))
    (plugins : Option (List DbPlugin) := none) : DefineDbResult :=
  match plugins with
  | none => { schema := schema, plugins := [] }
  | some ps => ps.foldl DefineDbResult.use { schema := schema, plugins := [] }

/-! ## Field builder (core/src/field-builder.ts, FieldBuilderImpl)

The source chains mutate a private fieldType plus a config object and
return this; the embedding threads the same two components through pure
updates.  The build method spreads the config after the type, which the
DBFieldAttribute structure mirrors field-for-field. -/

structure FieldConfig where
  required : Option Bool := none
  unique : Option Bool := none
  primaryKey : Option Bool := none
  index : Option Bool := none
  defaultValue : Option DefaultValue := none
  references : Option FieldReference := none
  deriving DecidableEq, Repr

structure FieldBuilderImpl where
  fieldType : DBFieldType := .string
  config : FieldConfig := {}
  deriving DecidableEq, Repr

namespace FieldBuilderImpl

def id (fb : FieldBuilderImpl) : FieldBuilderImpl :=
  { fb with fieldType := .string,
            config := { fb.config with required := some true } }

def text (fb : FieldBuilderImpl) : FieldBuilderImpl :=
  { fb with fieldType := .string }

def string (fb : FieldBuilderImpl) : FieldBuilderImpl :=
  { fb with fieldType := .string }

def number (fb : FieldBuilderImpl) : FieldBuilderImpl :=
  { fb with fieldType := .number }

def integer (fb : FieldBuilderImpl) : FieldBuilderImpl :=
  { fb with fieldType := .number }

def boolean (fb : FieldBuilderImpl) : FieldBuilderImpl :=
  { fb with fieldType := .boolean }

def date (fb : FieldBuilderImpl) : FieldBuilderImpl :=
  { fb with fieldType := .date }

def timestamp (fb : FieldBuilderImpl) : FieldBuilderImpl :=
  { fb with fieldType := .date }

def json (fb : FieldBuilderImpl) : FieldBuilderImpl :=
  { fb with fieldType := .json }

def primaryKey (fb : FieldBuilderImpl) : FieldBuilderImpl :=
  { fb with config := { fb.config with primaryKey := some true,
                                       required := some true } }

def notNull (fb : FieldBuilderImpl) : FieldBuilderImpl :=
  { fb with config := { fb.config with required := some true } }

def nullable (fb : FieldBuilderImpl) : FieldBuilderImpl :=
  { fb with config := { fb.config with required := some false } }

def unique (fb : FieldBuilderImpl) : FieldBuilderImpl :=
  { fb with config := { fb.config with unique := some true } }

def index (fb : FieldBuilderImpl) : FieldBuilderImpl :=
  { fb with config := { fb.config with index := some true } }

def defaultValue (fb : FieldBuilderImpl) (v : String) : FieldBuilderImpl :=
  { fb with config := { fb.config with defaultValue := some (.val v) } }

def defaultNow (fb : FieldBuilderImpl) : FieldBuilderImpl :=
  let dv : DefaultValue := if fb.fieldType = .date then .nowDate else .nowNumber
  { fb with config := { fb.config with defaultValue := some dv } }

/-- references(model, field = "id"): installs a reference descriptor with
the on-delete policy hard-wired to cascade. -/
def references (fb : FieldBuilderImpl) (model : String)
    (field : String := "id") : FieldBuilderImpl :=
  let r : FieldReference := { model := model, field := field, onDelete := "cascade" }
  { fb with config := { fb.config with references := some r } }

/-- The source's build step (written there with a leading underscore):
the attribute is the field type together with the accumulated config. -/
def build (fb : FieldBuilderImpl) : DBFieldAttribute :=
  { type := fb.fieldType,
    required := fb.config.required,
    unique := fb.config.unique,
    primaryKey := fb.config.primaryKey,
    index := fb.config.index,
    defaultValue := fb.config.defaultValue,
    references := fb.config.references }

end FieldBuilderImpl

/-- The factory's id entry: a fresh string builder with the id chain
applied (createFieldBuilderFactory in field-builder.ts). -/
def factoryId : FieldBuilderImpl :=
  FieldBuilderImpl.id { fieldType := .string }

/-- Every fluent call a user can make on a field builder, so that
properties of arbitrary builder chains can be stated by recursion over the
call list. -/
inductive BuilderCall where
  | id | text | string | number | integer | boolean | date | timestamp
  | json | primaryKey | notNull | nullable | unique | index
  | defaultValue (v : String) | defaultNow
  | references (model : String) (field : String)
  deriving DecidableEq, Repr

def applyCall (fb : FieldBuilderImpl) : BuilderCall → FieldBuilderImpl
  | .id => fb.id
  | .text => fb.text
  | .string => fb.string
  | .number => fb.number
  | .integer => fb.integer
  | .boolean => fb.boolean
  | .date => fb.date
  | .timestamp => fb.timestamp
  | .json => fb.json
  | .primaryKey => fb.primaryKey
  | .notNull => fb.notNull
  | .nullable => fb.nullable
  | .unique => fb.unique
  | .index => fb.index
  | .defaultValue v => fb.defaultValue v
  | .defaultNow => fb.defaultNow
  | .references m f => fb.references m f

def applyCalls (fb : FieldBuilderImpl) (calls : List BuilderCall) :
    FieldBuilderImpl :=
  calls.foldl applyCall fb

/-! ## Table construction (core/src/table.ts, three source generations)

The builder callback's result is an object mapping field names to field
builders, embedded as an association list.  The field loop writes each
built attribute into the fields object in order. -/

def buildFields (fbs : List (String × FieldBuilderImpl))
    (init : List (String × DBFieldAttribute)) :
    List (String × DBFieldAttribute) :=
  fbs.foldl (fun m e => objSet m e.1 (e.2.build)) init

/-- First generation of table(): rejects any declared id field with a
plain Error and otherwise starts the fields object from a synthesized
id of type string, required, before appending the declared fields. -/
def table1 (name : String) (fieldBuilders : List (String × FieldBuilderImpl)) :
    Except String DbTable :=
  if (objLookup ("id") fieldBuilders).isSome then
    .error ("Table \"" ++ name ++ "\": Do not define \"id\" field explicitly. Better Auth automatically adds it as the primary key.")
  else
    .ok { modelName := name,
          fields := buildFields fieldBuilders
            [(("id"), { type := .string, required := some true })] }

/-- Second generation of table(): keeps a declared id builder as-is and
otherwise assigns the factory's id builder into the builder object, which
appends it after the declared fields. -/
def table2 (name : String) (fieldBuilders : List (String × FieldBuilderImpl)) :
    DbTable :=
  let fbs :=
    if (objLookup ("id") fieldBuilders).isSome then fieldBuilders
    else objSet fieldBuilders ("id") factoryId
  { modelName := name, fields := buildFields fbs [] }

/-- Third generation of table(): like the second but the synthesized id
builder additionally gets the primaryKey chain. -/
def table3 (name : String) (fieldBuilders : List (String × FieldBuilderImpl)) :
    DbTable :=
  let fbs :=
    if (objLookup ("id") fieldBuilders).isSome then fieldBuilders
    else objSet fieldBuilders ("id") factoryId.primaryKey
  { modelName := name, fields := buildFields fbs [] }

/-! ## Migration generation (unnamed part_020 and the CLI commands)

getMigrations comes from the external better-auth/db package; only its
callers live in this tree. -/

def isJsSpace (c : Char) : Bool :=
  c = ' ' || c = '\t' || c = '\n' || c = '\r' || c = '\x0b' || c = '\x0c'

/-- JS String.prototype.trim: strip whitespace from both ends. -/
def trimChars (s : List Char) : List Char :=
  ((s.dropWhile isJsSpace).reverse.dropWhile isJsSpace).reverse

def trimJs (s : String) : String :=
  String.mk (trimChars s.toList)

structure MigrationDelta where
  toBeCreated : List String
  toBeAdded : List (String × String)
  deriving DecidableEq, Repr

/-- Modelled from the spec: getMigrations' compileMigrations is not in the
source tree (it is imported from better-auth/db).  Per the spec's Migration
Diff Engine contract, compile renders the delta as a batch of dialect
statements (CREATE TABLE for each table to create, ALTER TABLE ADD COLUMN
for each column to add); the batch is a ";"-separated statement text whose
final statement is also terminated, so an empty delta compiles to a bare
terminator that trims to ";". -/
def compileMigrations (d : MigrationDelta) : String :=
  String.intercalate (";\n\n")
    (d.toBeCreated.map (fun t => "create table " ++ t)
      ++ d.toBeAdded.map (fun c => "alter table " ++ c.1 ++ " add column " ++ c.2))
    ++ ";"

/-- generateMigrations (unnamed part_020): the emitted code is the compiled
migration text, blanked out when it trims to a lone terminator. -/
def generateMigrationsCode (d : MigrationDelta) : String :=
  let migrations := compileMigrations d
  if trimJs migrations = ";" then "" else migrations

/-- Observable effects of migrateAction (cli/src/commands/migrate.ts):
whether any migration statements were run and whether an SQL artifact file
was written.  Step 7 of the source returns before either effect when both
delta lists are empty; otherwise step 8 writes the file when an output path
was given, else step 10 runs the migrations (interactive confirmation
prompts are abstracted as accepted; they can only turn the non-empty
branches into further no-ops, never add effects to the empty branch). -/
structure MigrateEffects where
  ranMigrations : Bool
  wroteFile : Bool
  deriving DecidableEq, Repr

def migrateAction (d : MigrationDelta) (outputPath : Option String) :
    MigrateEffects :=
  if d.toBeCreated.length = 0 ∧ d.toBeAdded.length = 0 then
    { ranMigrations := false, wroteFile := false }
  else if outputPath.isSome then
    { ranMigrations := false, wroteFile := true }
  else
    { ranMigrations := true, wroteFile := false }

/-- generateAction's output handling (cli/src/commands/generate.ts, step 8):
a falsy result code returns before the write at step 11, so a file is
written exactly when the generated code is non-empty. -/
def generateActionWrites (code : String) : Bool :=
  !(code = "")

/-! ## Heap model of DefineDbResultImpl.use (plugin.ts)

To settle the frame property (inputs never mutated, result a fresh
registry) the merge is re-embedded over an explicit heap of JS objects
with numeric identities.  The method's only writes go to the object
freshly allocated by spreading this.schema; the embedding threads that
object's entries functionally and allocates it once, so every write the
source performs lands in a fresh address and pre-existing addresses are
only read.  A registry is identified with its schema-map object. -/

inductive HObj where
  | table (t : DbTable)
  | schemaMap (entries : List (String × Nat))
  deriving DecidableEq, Repr

structure Heap where
  objs : List (Nat × HObj)
  next : Nat
  deriving DecidableEq, Repr

def Heap.get (h : Heap) (a : Nat) : Option HObj :=
  match h.objs.find? (fun e => e.1 = a) with
  | some e => some e.2
  | none => none

def Heap.WF (h : Heap) : Prop :=
  ∀ e ∈ h.objs, e.1 < h.next

def Heap.alloc (h : Heap) (o : HObj) : Heap × Nat :=
  ({ objs := h.objs ++ [(h.next, o)], next := h.next + 1 }, h.next)

def getTable (h : Heap) (a : Nat) : Option DbTable :=
  match h.get a with
  | some (.table t) => some t
  | _ => none

/-- One iteration of the merge loop over the heap: e is one entry of the
plugin's schema object (table name, table-object address); m is the
current entries of the freshly spread mergedSchema object. -/
def useHeapStep (st : Heap × List (String × Nat)) (e : String × Nat) :
    Option (Heap × List (String × Nat)) :=
  match objLookup e.1 st.2 with
  | some bAddr =>
    match getTable st.1 bAddr, getTable st.1 e.2 with
    | some bt, some pt =>
      let al := st.1.alloc (.table (mergeTables bt pt))
      some (al.1, objSet st.2 e.1 al.2)
    | _, _ => none
  | none => some (st.1, objSet st.2 e.1 e.2)

/-- DefineDbResultImpl.use over the heap: read this.schema at bAddr,
spread it, run the merge loop, and return the address of the resulting
fresh schema-map object. -/
def useHeap (h : Heap) (bAddr : Nat) (ptables : List (String × Nat)) :
    Option (Heap × Nat) :=
  match h.get bAddr with
  | some (.schemaMap es) =>
    match ptables.foldlM useHeapStep (h, es) with
    | some st =>
      let al := st.1.alloc (.schemaMap st.2)
      some (al.1, al.2)
    | none => none
  | _ => none

/-! ## Auth-table filters (unnamed part_019)

The filters are line-by-line passes driven by a handful of fixed JS
regular expressions.  Each concrete pattern is embedded as a character
scanner with the same first-match semantics: a pattern matcher tries the
pattern at a position, and scanFirst tries positions left to right.  For
these patterns greedy repetition with backtracking coincides with maximal
munch because each repeated class is disjoint from the character that has
to follow it. -/

def isWordChar (c : Char) : Bool :=
  c.isAlphanum || c = '_'

def isQuoteChar (c : Char) : Bool :=
  c = '"' || c = '\x27' || c = '\x60'

def stripLit : List Char → List Char → Option (List Char)
  | [], s => some s
  | _ :: _, [] => none
  | p :: ps, c :: cs => if c = p then stripLit ps cs else none

def stripCI : List Char → List Char → Option (List Char)
  | [], s => some s
  | _ :: _, [] => none
  | p :: ps, c :: cs => if c.toLower = p.toLower then stripCI ps cs else none

def ws1 : List Char → Option (List Char)
  | [] => none
  | c :: cs => if isJsSpace c then some (cs.dropWhile isJsSpace) else none

def wsMany (s : List Char) : List Char :=
  s.dropWhile isJsSpace

def word1 : List Char → Option (List Char × List Char)
  | [] => none
  | c :: cs =>
    if isWordChar c then
      some ((c :: cs).takeWhile isWordChar, (c :: cs).dropWhile isWordChar)
    else none

def skipOptQuote : List Char → List Char
  | [] => []
  | c :: cs => if isQuoteChar c then cs else c :: cs

def scanFirst (f : List Char → Option α) : List Char → Option α
  | [] => f []
  | c :: cs =>
    match f (c :: cs) with
    | some r => some r
    | none => scanFirst f cs

def DEFAULT_AUTH_TABLES : List String :=
  ["user", "session", "account", "verification", "rateLimit", "ratelimit"]

def DEFAULT_AUTH_MODELS : List String :=
  ["User", "Session", "Account", "Verification", "RateLimit"]

/-- JS toLowerCase, character by character (the names involved are
ASCII). -/
def lowerStr (s : String) : String :=
  String.mk (s.toList.map Char.toLower)

def isAuthTableName (w : String) : Bool :=
  DEFAULT_AUTH_TABLES.contains (lowerStr w)

/-- JS split on a newline. -/
def splitNlChars : List Char → List (List Char)
  | [] => [[]]
  | c :: cs =>
    match splitNlChars cs with
    | [] => [[c]]
    | h :: t => if c = '\n' then [] :: h :: t else (c :: h) :: t

def splitLines (s : String) : List String :=
  (splitNlChars s.toList).map String.mk

def joinLines (ls : List String) : String :=
  String.intercalate ("\n") ls

/-- The blank-line cleanup regex of the Prisma and Drizzle filters:
every maximal run of three or more newlines becomes two. -/
def collapseNLAux : Nat → List Char → List Char
  | k, [] => List.replicate (min k 2) ('\n')
  | k, c :: cs =>
    if c = '\n' then collapseNLAux (k + 1) cs
    else List.replicate (min k 2) ('\n') ++ c :: collapseNLAux 0 cs

def collapseNL (s : String) : String :=
  String.mk (collapseNLAux 0 s.toList)

def lineHasSemi (line : String) : Bool :=
  line.toList.contains (';')

/-! ### Kysely (SQL) filter -/

def kyselyCreateAt (s : List Char) : Option (List Char) := do
  let s ← stripCI ("CREATE".toList) s
  let s ← ws1 s
  let s ← stripCI ("TABLE".toList) s
  let s ← ws1 s
  let s := skipOptQuote s
  let p ← word1 s
  pure p.1

def kyselyAlterAt (s : List Char) : Option (List Char) := do
  let s ← stripCI ("ALTER".toList) s
  let s ← ws1 s
  let s ← stripCI ("TABLE".toList) s
  let s ← ws1 s
  let s := skipOptQuote s
  let p ← word1 s
  pure p.1

def kyselyRefAt (s : List Char) : Option (List Char) := do
  let s ← stripCI ("REFERENCES".toList) s
  let s ← ws1 s
  let s := skipOptQuote s
  let p ← word1 s
  pure p.1

def kyselyCreateName (line : String) : Option String :=
  (scanFirst kyselyCreateAt line.toList).map String.mk

def kyselyAlterAuth (line : String) : Bool :=
  match scanFirst kyselyAlterAt line.toList with
  | some w => isAuthTableName (String.mk w)
  | none => false

def kyselyRefAuth (line : String) : Bool :=
  match scanFirst kyselyRefAt line.toList with
  | some w => isAuthTableName (String.mk w)
  | none => false

/-- A line opening a CREATE TABLE statement for a reserved table. -/
def kyselyCreateAuth (line : String) : Bool :=
  match kyselyCreateName line with
  | some t => isAuthTableName t
  | none => false

def filterKyselyLines (inAuth : Bool) : List String → List String
  | [] => []
  | l :: ls =>
    match kyselyCreateName l with
    | some t =>
      if isAuthTableName t then filterKyselyLines true ls
      else if kyselyAlterAuth l then filterKyselyLines false ls
      else if kyselyRefAuth l then filterKyselyLines false ls
      else l :: filterKyselyLines false ls
    | none =>
      if inAuth then filterKyselyLines (!(lineHasSemi l)) ls
      else if kyselyAlterAuth l then filterKyselyLines false ls
      else if kyselyRefAuth l then filterKyselyLines false ls
      else l :: filterKyselyLines false ls

def filterKyselyAuthTables (code : String) : String :=
  trimJs (joinLines (filterKyselyLines false (splitLines code)))

/-! ### Prisma filter -/

def prismaModelAt (s : List Char) : Option (List Char) := do
  let s ← stripLit ("model".toList) s
  let s ← ws1 s
  let p ← word1 s
  let s := wsMany p.2
  let _ ← stripLit (['\x7b']) s
  pure p.1

def prismaModelName (line : String) : Option String :=
  (prismaModelAt line.toList).map String.mk

def prismaAuthDecl (line : String) : Bool :=
  match prismaModelName line with
  | some m => DEFAULT_AUTH_MODELS.contains m
  | none => false

def prismaRelTailAt (s : List Char) : Option Unit := do
  let s ← stripLit ("references:".toList) s
  let s := wsMany s
  let s ← stripLit (['[']) s
  let p ← word1 s
  let _ ← stripLit ([']']) p.2
  pure ()

def prismaRelAt (s : List Char) : Option Unit := do
  let s ← stripLit ("@relation".toList) s
  let _ ← scanFirst prismaRelTailAt s
  pure ()

def prismaRelationMatch (line : String) : Bool :=
  (scanFirst prismaRelAt line.toList).isSome

def hasSubstr (pat : String) (s : String) : Bool :=
  (scanFirst (stripLit pat.toList) s.toList).isSome

def prismaPrevAuth (prev : Option String) : Bool :=
  match prev with
  | some p => !(p = "") && DEFAULT_AUTH_MODELS.any (fun m => hasSubstr (lowerStr m) p)
  | none => false

def braceDelta (line : String) : Int :=
  line.toList.foldl
    (fun n c => if c = '\x7b' then n + 1 else if c = '\x7d' then n - 1 else n) 0

def parenDelta (line : String) : Int :=
  line.toList.foldl
    (fun n c => if c = '(' then n + 1 else if c = ')' then n - 1 else n) 0

def filterPrismaLines (inAuth : Bool) (bc : Int) (prev : Option String) :
    List String → List String
  | [] => []
  | l :: ls =>
    if prismaAuthDecl l then filterPrismaLines true 1 (some l) ls
    else if inAuth then
      let bc1 := bc + braceDelta l
      filterPrismaLines (!(bc1 = 0)) bc1 (some l) ls
    else if prismaRelationMatch l && prismaPrevAuth prev then
      filterPrismaLines inAuth bc (some l) ls
    else
      l :: filterPrismaLines inAuth bc (some l) ls

def filterPrismaAuthTables (code : String) : String :=
  trimJs (collapseNL (joinLines (filterPrismaLines false 0 none (splitLines code))))

/-! ### Drizzle filter -/

def drizzleDeclAt (s : List Char) : Option (List Char) := do
  let s ← stripLit ("export".toList) s
  let s ← ws1 s
  let s ← stripLit ("const".toList) s
  let s ← ws1 s
  let p ← word1 s
  let s := wsMany p.2
  let _ ← stripLit (['=']) s
  pure p.1

def drizzleDeclName (line : String) : Option String :=
  (scanFirst drizzleDeclAt line.toList).map String.mk

def drizzleAuthDecl (line : String) : Bool :=
  match drizzleDeclName line with
  | some t =>
    DEFAULT_AUTH_TABLES.contains (lowerStr t)
      || DEFAULT_AUTH_MODELS.any (fun m => lowerStr t = lowerStr m)
  | none => false

def filterDrizzleLines (inAuth : Bool) (pc : Int) : List String → List String
  | [] => []
  | l :: ls =>
    let isDecl := drizzleAuthDecl l
    let inA := inAuth || isDecl
    let pc0 := if isDecl then 0 else pc
    if inA then
      let pc1 := pc0 + parenDelta l
      filterDrizzleLines (!(pc1 = 0 && lineHasSemi l)) pc1 ls
    else
      l :: filterDrizzleLines inAuth pc ls

def filterDrizzleAuthTables (code : String) : String :=
  trimJs (collapseNL (joinLines (filterDrizzleLines false 0 (splitLines code))))

/-! ## Abbreviations used by the statements, and concrete demonstration
inputs used by the witnesses -/

/-- The table value the merge loop binds for one plugin entry: the merge
of the existing table when the name is already bound, the plugin table
verbatim otherwise. -/
def mergeVal (m : List (String × DbTable)) (e : String × DbTable) : DbTable :=
  match objLookup e.1 m with
  | some bt => mergeTables bt e.2
  | none => e.2

def demoFieldReq : DBFieldAttribute :=
  { type := .string, required := some true }

def demoFieldOpt : DBFieldAttribute :=
  { type := .string, required := some false }

def demoBase : DefineDbResult :=
  { schema := [("post", { modelName := "post", fields := [("f", demoFieldReq)] })],
    plugins := [] }

def demoPlugin : DbPlugin :=
  { name := "tags",
    schema := [("post", { modelName := "post", fields := [("f", demoFieldOpt)] }),
               ("tag", { modelName := "tag", fields := [] })] }

def demoPlugin2 : DbPlugin :=
  { name := "comments",
    schema := [("comment", { modelName := "comment", fields := [] })] }

def demoHeap : Heap :=
  { objs := [(0, .schemaMap [("post", 1)]),
             (1, .table { modelName := "post", fields := [] }),
             (2, .table { modelName := "comment", fields := [] })],
    next := 3 }

def demoFbs : List (String × FieldBuilderImpl) :=
  [("title", { fieldType := .string })]

def demoDelta : MigrationDelta :=
  { toBeCreated := [], toBeAdded := [] }

/-! ## Lemmas about the JS object primitives -/

theorem objKeys_nil : objKeys ([] : List (String × α)) = [] := rfl

theorem objKeys_cons (e : String × α) (es : List (String × α)) :
    objKeys (e :: es) = e.1 :: objKeys es := rfl

theorem objKeys_append (a b : List (String × α)) :
    objKeys (a ++ b) = objKeys a ++ objKeys b := by
  simp [objKeys]

theorem objHasKey_iff (k : String) (m : List (String × α)) :
    objHasKey k m = true ↔ k ∈ objKeys m := by
  induction m with
  | nil => simp [objHasKey, objKeys_nil]
  | cons e es ih =>
    simp only [objHasKey, List.any_cons, objKeys_cons, List.mem_cons] at *
    by_cases h : e.1 = k
    · simp [h]
    · simp only [Bool.or_eq_true, decide_eq_true_eq]
      constructor
      · rintro (hh | hh)
        · exact absurd hh h
        · exact Or.inr (ih.mp hh)
      · rintro (hh | hh)
        · exact absurd hh.symm h
        · exact Or.inr (ih.mpr hh)

theorem objLookup_eq_none_iff (k : String) (m : List (String × α)) :
    objLookup k m = none ↔ k ∉ objKeys m := by
  induction m with
  | nil => simp [objLookup, objKeys_nil]
  | cons e es ih =>
    by_cases h : e.1 = k
    · simp [objLookup, h, objKeys_cons]
    · rw [show objLookup k (e :: es) = objLookup k es by simp [objLookup, h], ih]
      simp only [objKeys_cons, List.mem_cons]
      constructor
      · intro hk hmem
        rcases hmem with hmem | hmem
        · exact h hmem.symm
        · exact hk hmem
      · intro hk hmem
        exact hk (Or.inr hmem)

theorem objLookup_isSome_iff (k : String) (m : List (String × α)) :
    (objLookup k m).isSome = true ↔ k ∈ objKeys m := by
  constructor
  · intro h
    by_contra hk
    rw [(objLookup_eq_none_iff k m).mpr hk] at h
    simp at h
  · intro hk
    cases hl : objLookup k m with
    | some v => simp
    | none => exact absurd hk ((objLookup_eq_none_iff k m).mp hl)

theorem objLookup_mem (k : String) (m : List (String × α)) (v : α)
    (h : objLookup k m = some v) : (k, v) ∈ m := by
  induction m with
  | nil => simp [objLookup] at h
  | cons e es ih =>
    by_cases he : e.1 = k
    · have h2 : e.2 = v := by simpa [objLookup, he] using h
      have he2 : e = (k, v) := by
        obtain ⟨e1, e2⟩ := e
        simp only at he h2
        simp [he, h2]
      rw [he2] at *
      exact List.mem_cons_self _ _
    · have h3 : objLookup k es = some v := by simpa [objLookup, he] using h
      exact List.mem_cons_of_mem e (ih h3)

theorem objLookup_map_overwrite (k : String) (v : α) (m : List (String × α)) :
    objLookup k (m.map (fun e => if e.1 = k then (k, v) else e)) =
      (objLookup k m).map (fun _ => v) := by
  induction m with
  | nil => simp [objLookup]
  | cons e es ih =>
    by_cases h : e.1 = k
    · simp [objLookup, h]
    · simp [objLookup, h, ih]

theorem objLookup_map_overwrite_ne (k k' : String) (v : α)
    (m : List (String × α)) (h : k' ≠ k) :
    objLookup k' (m.map (fun e => if e.1 = k then (k, v) else e)) =
      objLookup k' m := by
  induction m with
  | nil => simp [objLookup]
  | cons e es ih =>
    by_cases he : e.1 = k
    · have : k ≠ k' := fun hkk => h hkk.symm
      simp [objLookup, he, this, ih]
    · simp only [List.map_cons, if_neg he]
      by_cases he' : e.1 = k'
      · simp [objLookup, he']
      · simp [objLookup, he', ih]

theorem objLookup_append_of_none (k : String) (a b : List (String × α))
    (h : objLookup k a = none) : objLookup k (a ++ b) = objLookup k b := by
  induction a with
  | nil => simp
  | cons e es ih =>
    by_cases he : e.1 = k
    · simp [objLookup, he] at h
    · have h3 : objLookup k es = none := by simpa [objLookup, he] using h
      simpa [objLookup, he] using ih h3

theorem objLookup_single (k : String) (v : α) :
    objLookup k [(k, v)] = some v := by
  simp [objLookup]

theorem objSet_lookup_self (m : List (String × α)) (k : String) (v : α) :
    objLookup k (objSet m k v) = some v := by
  unfold objSet
  by_cases h : objHasKey k m
  · rw [if_pos h, objLookup_map_overwrite]
    cases hl : objLookup k m with
    | none =>
      exact absurd ((objHasKey_iff k m).mp h)
        ((objLookup_eq_none_iff k m).mp hl)
    | some w => simp
  · have hk : k ∉ objKeys m := fun hk => h ((objHasKey_iff k m).mpr hk)
    rw [if_neg h, objLookup_append_of_none k m _ ((objLookup_eq_none_iff k m).mpr hk)]
    exact objLookup_single k v

theorem objLookup_append_match (k : String) (a b : List (String × α)) :
    objLookup k (a ++ b) =
      match objLookup k a with
      | some v => some v
      | none => objLookup k b := by
  induction a with
  | nil => simp [objLookup]
  | cons e es ih =>
    by_cases he : e.1 = k
    · simp [objLookup, he]
    · simp [objLookup, he, ih]

theorem objSet_lookup_ne (m : List (String × α)) (k k' : String) (v : α)
    (h : k' ≠ k) : objLookup k' (objSet m k v) = objLookup k' m := by
  unfold objSet
  by_cases hk : objHasKey k m
  · rw [if_pos hk]
    exact objLookup_map_overwrite_ne k k' v m h
  · rw [if_neg hk, objLookup_append_match]
    have hkk : ¬ k = k' := fun hx => h hx.symm
    cases hl : objLookup k' m with
    | some w => simp
    | none => simp [objLookup, hkk]

theorem objKeys_map_overwrite (k : String) (v : α) (m : List (String × α)) :
    objKeys (m.map (fun e => if e.1 = k then (k, v) else e)) = objKeys m := by
  induction m with
  | nil => rfl
  | cons e es ih =>
    by_cases h : e.1 = k
    · simp [objKeys_cons, ih, h]
    · simp [objKeys_cons, ih, h]

theorem objSet_keys_mem (m : List (String × α)) (k : String) (v : α)
    (n : String) : n ∈ objKeys (objSet m k v) ↔ n ∈ objKeys m ∨ n = k := by
  unfold objSet
  by_cases hk : objHasKey k m
  · rw [if_pos hk, objKeys_map_overwrite]
    constructor
    · exact fun h => Or.inl h
    · rintro (h | h)
      · exact h
      · exact h ▸ (objHasKey_iff k m).mp hk
  · rw [if_neg hk, objKeys_append]
    simp [objKeys_cons, objKeys_nil]

theorem objSet_of_not_mem (m : List (String × α)) (k : String) (v : α)
    (h : k ∉ objKeys m) : objSet m k v = m ++ [(k, v)] := by
  unfold objSet
  rw [if_neg (fun hk => h ((objHasKey_iff k m).mp hk))]

theorem objMerge_lookup_not_mem (a b : List (String × α)) (f : String)
    (h : f ∉ objKeys b) : objLookup f (objMerge a b) = objLookup f a := by
  induction b generalizing a with
  | nil => rfl
  | cons e es ih =>
    rw [objKeys_cons, List.mem_cons] at h
    push_neg at h
    show objLookup f (objMerge (objSet a e.1 e.2) es) = _
    rw [ih _ h.2, objSet_lookup_ne _ _ _ _ h.1]

theorem objMerge_lookup_mem (a b : List (String × α)) (f : String) (v : α)
    (hnd : (objKeys b).Nodup) (h : objLookup f b = some v) :
    objLookup f (objMerge a b) = some v := by
  induction b generalizing a with
  | nil => simp [objLookup] at h
  | cons e es ih =>
    rw [objKeys_cons, List.nodup_cons] at hnd
    by_cases he : e.1 = f
    · have h2 : e.2 = v := by simpa [objLookup, he] using h
      have hf : f ∉ objKeys es := he ▸ hnd.1
      show objLookup f (objMerge (objSet a e.1 e.2) es) = _
      rw [objMerge_lookup_not_mem _ _ _ hf, he, objSet_lookup_self, h2]
    · have h3 : objLookup f es = some v := by simpa [objLookup, he] using h
      show objLookup f (objMerge (objSet a e.1 e.2) es) = _
      exact ih _ hnd.2 h3

theorem objMerge_lookup (a b : List (String × α)) (f : String)
    (hnd : (objKeys b).Nodup) :
    objLookup f (objMerge a b) =
      match objLookup f b with
      | some v => some v
      | none => objLookup f a := by
  cases hb : objLookup f b with
  | some v => exact objMerge_lookup_mem a b f v hnd hb
  | none => exact objMerge_lookup_not_mem a b f ((objLookup_eq_none_iff f b).mp hb)

/-! ## Lemmas about the plugin-merge fold -/

theorem mergeStep_eq (m : List (String × DbTable)) (e : String × DbTable) :
    mergeStep m e = objSet m e.1 (mergeVal m e) := by
  unfold mergeStep mergeVal
  cases objLookup e.1 m <;> rfl

theorem mergeVal_congr (m m' : List (String × DbTable)) (e : String × DbTable)
    (h : objLookup e.1 m = objLookup e.1 m') : mergeVal m e = mergeVal m' e := by
  unfold mergeVal
  rw [h]

theorem mergeFold_lookup_not_mem (P : List (String × DbTable))
    (m : List (String × DbTable)) (n : String) (h : n ∉ objKeys P) :
    objLookup n (P.foldl mergeStep m) = objLookup n m := by
  induction P generalizing m with
  | nil => rfl
  | cons e es ih =>
    rw [objKeys_cons, List.mem_cons] at h
    push_neg at h
    rw [List.foldl_cons, ih _ h.2, mergeStep_eq, objSet_lookup_ne _ _ _ _ h.1]

theorem mergeFold_lookup_mem (P : List (String × DbTable))
    (m : List (String × DbTable)) (n : String) (pt : DbTable)
    (hnd : (objKeys P).Nodup) (h : objLookup n P = some pt) :
    objLookup n (P.foldl mergeStep m) = some (mergeVal m (n, pt)) := by
  induction P generalizing m with
  | nil => simp [objLookup] at h
  | cons e es ih =>
    rw [objKeys_cons, List.nodup_cons] at hnd
    by_cases he : e.1 = n
    · have h2 : e.2 = pt := by simpa [objLookup, he] using h
      have hn : n ∉ objKeys es := he ▸ hnd.1
      rw [List.foldl_cons, mergeFold_lookup_not_mem es _ n hn, mergeStep_eq]
      have hv : mergeVal m e = mergeVal m (n, pt) := by
        obtain ⟨e1, e2⟩ := e
        simp only at he h2
        rw [he, h2]
      rw [show objSet m e.1 (mergeVal m e) = objSet m n (mergeVal m (n, pt)) by rw [he, hv]]
      exact objSet_lookup_self m n (mergeVal m (n, pt))
    · have h3 : objLookup n es = some pt := by simpa [objLookup, he] using h
      rw [List.foldl_cons, ih _ hnd.2 h3]
      have hl : objLookup n (mergeStep m e) = objLookup n m := by
        rw [mergeStep_eq]
        exact objSet_lookup_ne _ _ _ _ (fun hx => he hx.symm)
      rw [mergeVal_congr (mergeStep m e) m (n, pt) hl]

theorem mergeFold_keys_mem (P : List (String × DbTable))
    (m : List (String × DbTable)) (n : String) :
    n ∈ objKeys (P.foldl mergeStep m) ↔ n ∈ objKeys m ∨ n ∈ objKeys P := by
  induction P generalizing m with
  | nil => simp [objKeys_nil]
  | cons e es ih =>
    rw [List.foldl_cons, ih, mergeStep_eq, objSet_keys_mem, objKeys_cons]
    simp only [List.mem_cons]
    tauto

/-- C1: merging a plugin registry into a base registry through the use
operation produces a schema whose table-name set is the union of the two;
on a table name present in both, the merged table's fields are the base
fields overlaid with the plugin fields, the plugin winning key-for-key and
base-only fields retained unchanged; a table present only in the plugin is
inserted verbatim. -/
theorem c1_use_merges_tables (r : DefineDbResult) (p : DbPlugin)
    (hp : (objKeys p.schema).Nodup)
    (hf : ∀ e ∈ p.schema, (objKeys e.2.fields).Nodup) :
    (∀ n, n ∈ objKeys (r.use p).schema ↔
        n ∈ objKeys r.schema ∨ n ∈ objKeys p.schema)
    ∧ (∀ n bt pt, objLookup n r.schema = some bt →
        objLookup n p.schema = some pt →
          objLookup n (r.use p).schema = some (mergeTables bt pt)
          ∧ (∀ f a, objLookup f pt.fields = some a →
              objLookup f (mergeTables bt pt).fields = some a)
          ∧ (∀ f, objLookup f pt.fields = none →
              objLookup f (mergeTables bt pt).fields = objLookup f bt.fields))
    ∧ (∀ n pt, objLookup n r.schema = none →
        objLookup n p.schema = some pt →
          objLookup n (r.use p).schema = some pt) := by
  simp only [DefineDbResult.use]
  refine ⟨?_, ?_, ?_⟩
  · intro n
    exact mergeFold_keys_mem p.schema r.schema n
  · intro n bt pt hb hp2
    have h1 := mergeFold_lookup_mem p.schema r.schema n pt hp hp2
    refine ⟨?_, ?_, ?_⟩
    · rw [h1]
      unfold mergeVal
      simp only [hb]
    · intro f a hfa
      have hm := objMerge_lookup_mem bt.fields pt.fields f a
        (hf (n, pt) (objLookup_mem n p.schema pt hp2)) hfa
      simpa only [mergeTables] using hm
    · intro f hfn
      have hm := objMerge_lookup_not_mem bt.fields pt.fields f
        ((objLookup_eq_none_iff f pt.fields).mp hfn)
      simpa only [mergeTables] using hm
  · intro n pt hb hp2
    have h1 := mergeFold_lookup_mem p.schema r.schema n pt hp hp2
    rw [h1]
    unfold mergeVal
    simp only [hb]

/-- Witness for C1 at the spec's own override example: base table post has
f required, the plugin's post has f optional, and the merged registry
binds post to the merged table. -/
theorem c1_use_merges_tables_witness :
    ((objKeys demoPlugin.schema).Nodup
      ∧ ∀ e ∈ demoPlugin.schema, (objKeys e.2.fields).Nodup)
    ∧ objLookup ("post") (demoBase.use demoPlugin).schema =
        some (mergeTables { modelName := "post", fields := [("f", demoFieldReq)] }
                          { modelName := "post", fields := [("f", demoFieldOpt)] }) := by
  have h := c1_use_merges_tables demoBase demoPlugin (by decide) (by decide)
  exact ⟨⟨by decide, by decide⟩, (h.2.1 ("post") _ _ (by rfl) (by rfl)).1⟩

/-- C7: applying two plugins with disjoint table-name sets in either order
yields registries with the same table-name set and the same table (same
fields, same definitions) at every name. -/
theorem c7_disjoint_plugins_commute (B : DefineDbResult) (P1 P2 : DbPlugin)
    (h1 : (objKeys P1.schema).Nodup) (h2 : (objKeys P2.schema).Nodup)
    (hd : ∀ n, n ∈ objKeys P1.schema → n ∉ objKeys P2.schema) :
    (∀ n, n ∈ objKeys ((B.use P1).use P2).schema ↔
        n ∈ objKeys ((B.use P2).use P1).schema)
    ∧ ∀ n, objLookup n ((B.use P1).use P2).schema
        = objLookup n ((B.use P2).use P1).schema := by
  have key : ∀ n, objLookup n ((B.use P1).use P2).schema
      = objLookup n ((B.use P2).use P1).schema := by
    intro n
    simp only [DefineDbResult.use]
    cases hl1 : objLookup n P1.schema with
    | some pt1 =>
      have hm1 : n ∈ objKeys P1.schema :=
        (objLookup_isSome_iff n P1.schema).mp (by simp [hl1])
      have hn2 : n ∉ objKeys P2.schema := hd n hm1
      rw [mergeFold_lookup_not_mem P2.schema _ n hn2,
          mergeFold_lookup_mem P1.schema B.schema n pt1 h1 hl1,
          mergeFold_lookup_mem P1.schema (P2.schema.foldl mergeStep B.schema) n pt1 h1 hl1]
      rw [mergeVal_congr B.schema (P2.schema.foldl mergeStep B.schema) (n, pt1)
        (mergeFold_lookup_not_mem P2.schema B.schema n hn2).symm]
    | none =>
      have hn1 : n ∉ objKeys P1.schema := (objLookup_eq_none_iff n P1.schema).mp hl1
      cases hl2 : objLookup n P2.schema with
      | some pt2 =>
        rw [mergeFold_lookup_mem P2.schema (P1.schema.foldl mergeStep B.schema) n pt2 h2 hl2,
            mergeFold_lookup_not_mem P1.schema _ n hn1,
            mergeFold_lookup_mem P2.schema B.schema n pt2 h2 hl2]
        rw [mergeVal_congr (P1.schema.foldl mergeStep B.schema) B.schema (n, pt2)
          (mergeFold_lookup_not_mem P1.schema B.schema n hn1)]
      | none =>
        have hn2 : n ∉ objKeys P2.schema := (objLookup_eq_none_iff n P2.schema).mp hl2
        rw [mergeFold_lookup_not_mem P2.schema _ n hn2,
            mergeFold_lookup_not_mem P1.schema _ n hn1,
            mergeFold_lookup_not_mem P1.schema _ n hn1,
            mergeFold_lookup_not_mem P2.schema _ n hn2]
  refine ⟨?_, key⟩
  intro n
  rw [← objLookup_isSome_iff, ← objLookup_isSome_iff, key n]

/-- Witness for C7: the tags plugin (tables post, tag) and the comments
plugin (table comment) touch disjoint table sets, and both application
orders agree at every concrete name involved. -/
theorem c7_disjoint_plugins_commute_witness :
    ((objKeys demoPlugin.schema).Nodup ∧ (objKeys demoPlugin2.schema).Nodup
      ∧ ∀ n, n ∈ objKeys demoPlugin.schema → n ∉ objKeys demoPlugin2.schema)
    ∧ objLookup ("comment") ((demoBase.use demoPlugin).use demoPlugin2).schema
        = objLookup ("comment") ((demoBase.use demoPlugin2).use demoPlugin).schema := by
  have h := c7_disjoint_plugins_commute demoBase demoPlugin demoPlugin2
    (by decide) (by decide) (by decide)
  exact ⟨⟨by decide, by decide, by decide⟩, h.2 ("comment")⟩

theorem foldl_use_plugins (ps : List DbPlugin) (r : DefineDbResult) :
    (List.foldl DefineDbResult.use r ps).plugins = r.plugins ++ ps := by
  induction ps generalizing r with
  | nil => simp
  | cons p ps ih =>
    rw [List.foldl_cons, ih]
    simp [DefineDbResult.use]

/-- C9: the options-plugins form of defineDb is exactly the left fold of
the use operation over the plugin list starting from the bare registry,
and it accumulates precisely that plugin list in order. -/
theorem c9_defineDb_options_is_fold (schema : List (String × DbTable))
    (ps : List DbPlugin) :
    defineDb schema (some ps)
        = List.foldl DefineDbResult.use (defineDb schema none) ps
    ∧ (defineDb schema (some ps)).plugins = ps := by
  constructor
  · rfl
  · simp only [defineDb]
    rw [foldl_use_plugins]
    simp

/-! ## Field-builder and table-construction claims -/

theorem applyCalls_cascade (calls : List BuilderCall) (fb : FieldBuilderImpl)
    (h : ∀ r, fb.config.references = some r → r.onDelete = "cascade") :
    ∀ r, (applyCalls fb calls).config.references = some r →
      r.onDelete = "cascade" := by
  induction calls generalizing fb with
  | nil => exact h
  | cons c cs ih =>
    have hstep : ∀ r, (applyCall fb c).config.references = some r →
        r.onDelete = "cascade" := by
      intro r hr
      cases c
      case references m f =>
        simp only [applyCall, FieldBuilderImpl.references, Option.some.injEq] at hr
        rw [← hr]
      all_goals
        exact h r (by simpa only [applyCall, FieldBuilderImpl.id,
          FieldBuilderImpl.text, FieldBuilderImpl.string, FieldBuilderImpl.number,
          FieldBuilderImpl.integer, FieldBuilderImpl.boolean, FieldBuilderImpl.date,
          FieldBuilderImpl.timestamp, FieldBuilderImpl.json,
          FieldBuilderImpl.primaryKey, FieldBuilderImpl.notNull,
          FieldBuilderImpl.nullable, FieldBuilderImpl.unique,
          FieldBuilderImpl.index, FieldBuilderImpl.defaultValue,
          FieldBuilderImpl.defaultNow] using hr)
    exact ih (applyCall fb c) hstep

/-- C8: a reference installed by the builder's references call defaults
its target field to id, always carries the cascade on-delete policy, and
no chain of builder calls starting from a builder without a reference can
produce a reference with any other policy. -/
theorem c8_reference_defaults (fb : FieldBuilderImpl) (model field : String)
    (calls : List BuilderCall) (h0 : fb.config.references = none) :
    (fb.references model).build.references =
        some { model := model, field := "id", onDelete := "cascade" }
    ∧ (fb.references model field).build.references =
        some { model := model, field := field, onDelete := "cascade" }
    ∧ (∀ r, (applyCalls fb calls).config.references = some r →
        r.onDelete = "cascade") := by
  refine ⟨rfl, rfl, ?_⟩
  exact applyCalls_cascade calls fb (fun r hr => absurd hr (by simp [h0]))

/-- Witness for C8 on a fresh builder and a concrete call chain. -/
theorem c8_reference_defaults_witness :
    (({} : FieldBuilderImpl).config.references = none)
    ∧ (({} : FieldBuilderImpl).references ("user")).build.references =
        some { model := "user", field := "id", onDelete := "cascade" } := by
  have h := c8_reference_defaults {} ("user") ("uid")
    [BuilderCall.text, BuilderCall.notNull,
     BuilderCall.references ("user") ("id")] (by rfl)
  exact ⟨rfl, h.1⟩

theorem objKeys_map_build (fbs : List (String × FieldBuilderImpl)) :
    objKeys (fbs.map (fun e => (e.1, e.2.build))) = objKeys fbs := by
  induction fbs with
  | nil => rfl
  | cons e es ih => simp [objKeys_cons, ih]

theorem buildFields_eq_map (fbs : List (String × FieldBuilderImpl))
    (init : List (String × DBFieldAttribute))
    (hnd : (objKeys fbs).Nodup)
    (hdisj : ∀ k ∈ objKeys fbs, k ∉ objKeys init) :
    buildFields fbs init = init ++ fbs.map (fun e => (e.1, e.2.build)) := by
  induction fbs generalizing init with
  | nil => simp [buildFields]
  | cons e es ih =>
    rw [objKeys_cons, List.nodup_cons] at hnd
    have he : e.1 ∉ objKeys init :=
      hdisj e.1 (by rw [objKeys_cons]; exact List.mem_cons_self _ _)
    show buildFields es (objSet init e.1 e.2.build) = _
    rw [objSet_of_not_mem init e.1 _ he]
    rw [ih (init ++ [(e.1, e.2.build)]) hnd.2 ?hd]
    · simp
    case hd =>
      intro k hk hmem
      rw [objKeys_append, List.mem_append] at hmem
      rcases hmem with hmem | hmem
      · exact hdisj k (by rw [objKeys_cons]; exact List.mem_cons_of_mem _ hk) hmem
      · rw [objKeys_cons, objKeys_nil] at hmem
        simp at hmem
        exact hnd.1 (hmem ▸ hk)

/-- C2 (amended): for the table variant that accepts a declared id, the
model name is the given name; a declared id field is kept as-is (the
fields are exactly the built declared fields, in order); when id is
absent a field id of type string, required (but not unique) is synthesized
and appended after the declared fields; in both cases the table has
exactly one field named id. -/
theorem c2_table2_id_synthesis (name : String)
    (fbs : List (String × FieldBuilderImpl))
    (hnd : (objKeys fbs).Nodup) :
    (table2 name fbs).modelName = name
    ∧ ((objLookup ("id") fbs).isSome →
        (table2 name fbs).fields = fbs.map (fun e => (e.1, e.2.build)))
    ∧ (objLookup ("id") fbs = none →
        (table2 name fbs).fields
          = fbs.map (fun e => (e.1, e.2.build))
            ++ [(("id"), { type := .string, required := some true })])
    ∧ List.count ("id") (objKeys (table2 name fbs).fields) = 1 := by
  by_cases h : (objLookup ("id") fbs).isSome
  · have hmem : ("id") ∈ objKeys fbs := (objLookup_isSome_iff _ fbs).mp h
    have hfld : (table2 name fbs).fields = fbs.map (fun e => (e.1, e.2.build)) := by
      simp only [table2, h, if_true]
      rw [buildFields_eq_map fbs [] hnd (by simp [objKeys_nil])]
      simp
    refine ⟨rfl, fun _ => hfld, fun hn => absurd hn (by simp [Option.isSome_iff_ne_none] at h; exact h), ?_⟩
    rw [hfld, objKeys_map_build]
    exact List.count_eq_one_of_mem hnd hmem
  · have hn : objLookup ("id") fbs = none := by
      cases hl : objLookup ("id") fbs with
      | none => rfl
      | some v => rw [hl] at h; simp at h
    have hnm : ("id") ∉ objKeys fbs := (objLookup_eq_none_iff _ fbs).mp hn
    have hnd2 : (objKeys (fbs ++ [(("id"), factoryId)])).Nodup := by
      rw [objKeys_append, objKeys_cons, objKeys_nil]
      simp [List.nodup_append, hnd, hnm]
    have hfld : (table2 name fbs).fields
        = fbs.map (fun e => (e.1, e.2.build))
          ++ [(("id"), { type := .string, required := some true })] := by
      simp only [table2, h, Bool.false_eq_true, if_false]
      rw [objSet_of_not_mem fbs ("id") factoryId hnm]
      rw [buildFields_eq_map _ [] hnd2 (by simp [objKeys_nil])]
      simp
      rfl
    refine ⟨rfl, fun hs => absurd hs h, fun _ => hfld, ?_⟩
    rw [hfld, objKeys_append, objKeys_map_build, objKeys_cons, objKeys_nil]
    rw [List.count_append]
    rw [List.count_eq_zero_of_not_mem hnm]
    rfl

/-- Counterexample to C2 as stated: the synthesized id field is
type string and required only (unique is not set), and when other fields
are declared it is appended after them, not placed first. -/
theorem c2_counterexample :
    table2 ("post") [] =
      { modelName := "post",
        fields := [(("id"), { type := .string, required := some true })] }
    ∧ table2 ("post") demoFbs =
      { modelName := "post",
        fields := [(("title"), { type := .string }),
                   (("id"), { type := .string, required := some true })] } :=
  ⟨rfl, rfl⟩

/-- Witness for C2 (amended) on a concrete declared-field list without an
id field. -/
theorem c2_table2_id_synthesis_witness :
    (objKeys demoFbs).Nodup
    ∧ (table2 ("post") demoFbs).fields
        = demoFbs.map (fun e => (e.1, e.2.build))
          ++ [(("id"), { type := .string, required := some true })] := by
  have h := c2_table2_id_synthesis ("post") demoFbs (by decide)
  exact ⟨by decide, h.2.2.1 (by rfl)⟩

/-- C3 (amended): the first-generation table constructor fails exactly
when the declared fields contain a field named id at all, whether or not
that field carries a reference; the failure is a plain error message, and
the other generations never fail. -/
theorem c3_table1_rejects_declared_id (name : String)
    (fbs : List (String × FieldBuilderImpl)) :
    (∃ e, table1 name fbs = Except.error e) ↔
      (objLookup ("id") fbs).isSome = true := by
  unfold table1
  by_cases h : (objLookup ("id") fbs).isSome
  · simp [h]
  · simp [h]

/-- Counterexample to C3 as stated: a declared id without any reference
makes the first-generation constructor fail, and a declared id carrying a
reference is accepted without error by the second-generation constructor. -/
theorem c3_counterexample :
    (∃ e, table1 ("t") [(("id"), ({} : FieldBuilderImpl))] = Except.error e)
    ∧ (table2 ("t")
        [(("id"), ({} : FieldBuilderImpl).references ("user"))]).fields =
        [(("id"),
          { type := .string,
            references := some { model := "user", field := "id",
                                 onDelete := "cascade" } })] :=
  ⟨⟨_, rfl⟩, rfl⟩

/-! ## Empty migration delta (C5) -/

/-- C5: when the migration delta is empty, the compiled migration text
trims to a bare terminator, generateMigrations blanks it to the empty
code result, generateAction writes no artifact file, and migrateAction
returns before running statements or writing a file. -/
theorem c5_empty_delta_noop (d : MigrationDelta) (out : Option String)
    (hc : d.toBeCreated = []) (ha : d.toBeAdded = []) :
    generateMigrationsCode d = ""
    ∧ generateActionWrites (generateMigrationsCode d) = false
    ∧ migrateAction d out = { ranMigrations := false, wroteFile := false } := by
  have hd : d = { toBeCreated := [], toBeAdded := [] } := by
    cases d
    simp_all
  subst hd
  refine ⟨by decide, by decide, ?_⟩
  simp [migrateAction]

/-- Witness for C5 at the concrete empty delta. -/
theorem c5_empty_delta_noop_witness :
    (demoDelta.toBeCreated = [] ∧ demoDelta.toBeAdded = [])
    ∧ generateMigrationsCode demoDelta = ""
    ∧ migrateAction demoDelta none
        = { ranMigrations := false, wroteFile := false } := by
  have h := c5_empty_delta_noop demoDelta none rfl rfl
  exact ⟨⟨rfl, rfl⟩, h.1, h.2.2⟩

/-! ## Frame property of the merge over the heap (C6) -/

theorem find_append_some {p : α → Bool} (l1 l2 : List α) (x : α)
    (h : l1.find? p = some x) : (l1 ++ l2).find? p = some x := by
  induction l1 with
  | nil => simp [List.find?] at h
  | cons e es ih =>
    cases hp : p e with
    | true => simp [List.find?, hp] at h ⊢; exact h
    | false =>
      simp only [List.find?, hp] at h
      simpa [List.find?, hp] using ih h

theorem find_append_none {p : α → Bool} (l1 l2 : List α)
    (h : l1.find? p = none) : (l1 ++ l2).find? p = l2.find? p := by
  induction l1 with
  | nil => simp
  | cons e es ih =>
    cases hp : p e with
    | true => simp [List.find?, hp] at h
    | false =>
      simp only [List.find?, hp] at h
      simpa [List.find?, hp] using ih h

theorem Heap.get_alloc_ne (h : Heap) (o : HObj) (a : Nat) (ha : a ≠ h.next) :
    (h.alloc o).1.get a = h.get a := by
  show Heap.get { objs := h.objs ++ [(h.next, o)], next := h.next + 1 } a
      = Heap.get h a
  unfold Heap.get
  cases hf : h.objs.find? (fun e => e.1 = a) with
  | some x => rw [find_append_some _ _ _ hf]
  | none =>
    rw [find_append_none _ _ hf]
    have hne : ¬ (h.next = a) := fun hx => ha hx.symm
    simp [List.find?, hne]

theorem Heap.get_ge_none (h : Heap) (hwf : h.WF) (a : Nat)
    (ha : h.next ≤ a) : h.get a = none := by
  unfold Heap.get
  have hf : h.objs.find? (fun e => e.1 = a) = none := by
    rw [List.find?_eq_none]
    intro e he
    have := hwf e he
    simp only [decide_eq_true_eq]
    omega
  rw [hf]

theorem Heap.get_some_lt (h : Heap) (hwf : h.WF) (a : Nat) (o : HObj)
    (ha : h.get a = some o) : a < h.next := by
  by_contra hlt
  push_neg at hlt
  rw [Heap.get_ge_none h hwf a hlt] at ha
  simp at ha

theorem Heap.WF_alloc (h : Heap) (o : HObj) (hwf : h.WF) :
    (h.alloc o).1.WF := by
  intro e he
  simp only [Heap.alloc, List.mem_append, List.mem_singleton] at he ⊢
  rcases he with he | he
  · have := hwf e he
    omega
  · rw [he]
    simp

theorem useHeapStep_frame (st st' : Heap × List (String × Nat))
    (e : String × Nat) (h : useHeapStep st e = some st') :
    st.1.next ≤ st'.1.next
    ∧ (∀ a, a < st.1.next → st'.1.get a = st.1.get a)
    ∧ (st.1.WF → st'.1.WF) := by
  unfold useHeapStep at h
  split at h
  · split at h
    · simp only [Option.some.injEq] at h
      rw [← h]
      refine ⟨by simp [Heap.alloc], ?_, ?_⟩
      · intro a ha
        exact Heap.get_alloc_ne st.1 _ a (by omega)
      · intro hw
        exact Heap.WF_alloc st.1 _ hw
    · simp at h
  · simp only [Option.some.injEq] at h
    rw [← h]
    exact ⟨Nat.le_refl _, fun a _ => rfl, fun hw => hw⟩

theorem useHeapFold_frame (es : List (String × Nat))
    (st st' : Heap × List (String × Nat))
    (h : es.foldlM useHeapStep st = some st') :
    st.1.next ≤ st'.1.next
    ∧ (∀ a, a < st.1.next → st'.1.get a = st.1.get a)
    ∧ (st.1.WF → st'.1.WF) := by
  induction es generalizing st with
  | nil =>
    simp [List.foldlM] at h
    rw [← h]
    exact ⟨Nat.le_refl _, fun a _ => rfl, fun hw => hw⟩
  | cons e es ih =>
    rw [List.foldlM_cons] at h
    cases hs : useHeapStep st e with
    | none => rw [hs] at h; simp at h
    | some st1 =>
      rw [hs] at h
      have hrest : es.foldlM useHeapStep st1 = some st' := h
      have h1 := useHeapStep_frame st st1 e hs
      have h2 := ih st1 hrest
      refine ⟨Nat.le_trans h1.1 h2.1, ?_, fun hw => h2.2.2 (h1.2.2 hw)⟩
      intro a ha
      rw [h2.2.1 a (by omega), h1.2.1 a ha]

/-- C6: evaluating use over the heap never mutates pre-existing objects:
every address already allocated (the base registry's schema map, its
tables, and the plugin's tables) reads the same afterwards, and the
returned schema map lives at a fresh address distinct from every
pre-existing object, in particular from the base registry's. -/
theorem c6_use_no_mutation (h : Heap) (b : Nat) (pt : List (String × Nat))
    (h' : Heap) (r : Nat) (hwf : h.WF) (hu : useHeap h b pt = some (h', r)) :
    (∀ a, a < h.next → h'.get a = h.get a)
    ∧ h.next ≤ r
    ∧ h.get r = none
    ∧ h'.get b = h.get b
    ∧ r ≠ b := by
  unfold useHeap at hu
  split at hu
  · rename_i es hb
    split at hu
    · rename_i st hf
      simp only [Option.some.injEq, Prod.mk.injEq] at hu
      obtain ⟨hh, hr⟩ := hu
      have hfold := useHeapFold_frame pt (h, es) st hf
      have hle : h.next ≤ st.1.next := hfold.1
      have hget : ∀ a, a < h.next → st.1.get a = h.get a := hfold.2.1
      have hble : b < h.next := Heap.get_some_lt h hwf b _ hb
      have hframe : ∀ a, a < h.next → h'.get a = h.get a := by
        intro a ha
        rw [← hh]
        rw [Heap.get_alloc_ne st.1 _ a (by omega)]
        exact hget a ha
      have hrn : h.next ≤ r := by rw [← hr]; exact hle
      refine ⟨hframe, hrn, ?_, hframe b hble, ?_⟩
      · exact Heap.get_ge_none h hwf r hrn
      · omega
    · simp at hu
  · simp at hu

/-- Witness for C6 on a concrete heap holding the base registry's schema
map, its one table, and one plugin table. -/
theorem c6_use_no_mutation_witness :
    demoHeap.WF
    ∧ (∀ a, a < demoHeap.next →
        (match useHeap demoHeap 0 [(("comment"), 2)] with
         | some p => p.1.get a
         | none => none) = demoHeap.get a) := by
  have hu : useHeap demoHeap 0 [(("comment"), 2)] =
      some ({ objs := demoHeap.objs
                ++ [(3, .schemaMap [("post", 1), ("comment", 2)])],
              next := 4 }, 3) := by decide
  have hwf : demoHeap.WF := by
    unfold Heap.WF
    decide
  have h := c6_use_no_mutation demoHeap 0 [(("comment"), 2)] _ 3 hwf hu
  refine ⟨hwf, ?_⟩
  intro a ha
  rw [hu]
  exact h.1 a ha

/-! ## Auth-table filter claims (C4, C10) -/

theorem filterKyselyLines_sublist (inAuth : Bool) (ls : List String) :
    (filterKyselyLines inAuth ls).Sublist ls := by
  induction ls generalizing inAuth with
  | nil => simp [filterKyselyLines]
  | cons l ls ih =>
    rw [filterKyselyLines]
    split
    · split
      · exact List.Sublist.cons _ (ih _)
      · split
        · exact List.Sublist.cons _ (ih _)
        · split
          · exact List.Sublist.cons _ (ih _)
          · exact List.Sublist.cons₂ _ (ih _)
    · split
      · exact List.Sublist.cons _ (ih _)
      · split
        · exact List.Sublist.cons _ (ih _)
        · split
          · exact List.Sublist.cons _ (ih _)
          · exact List.Sublist.cons₂ _ (ih _)

/-- C10: the SQL filter only deletes whole lines: its surviving line list
is a sublist (order-preserving, verbatim) of the input's lines, and the
final output is exactly that line list joined and trimmed. -/
theorem c10_kysely_filter_deletes_whole_lines (code : String) :
    (filterKyselyLines false (splitLines code)).Sublist (splitLines code)
    ∧ filterKyselyAuthTables code
        = trimJs (joinLines (filterKyselyLines false (splitLines code))) :=
  ⟨filterKyselyLines_sublist false (splitLines code), rfl⟩

theorem filterPrismaLines_no_auth_decl (inAuth : Bool) (bc : Int)
    (prev : Option String) (ls : List String) :
    (filterPrismaLines inAuth bc prev ls).all
      (fun l => !(prismaAuthDecl l)) = true := by
  induction ls generalizing inAuth bc prev with
  | nil => rfl
  | cons l ls ih =>
    rw [filterPrismaLines]
    by_cases h1 : prismaAuthDecl l = true
    · rw [if_pos h1]
      exact ih true 1 (some l)
    · rw [if_neg h1]
      by_cases h2 : inAuth = true
      · rw [if_pos h2]
        exact ih _ _ (some l)
      · rw [if_neg h2]
        by_cases h3 : (prismaRelationMatch l && prismaPrevAuth prev) = true
        · rw [if_pos h3]
          exact ih inAuth bc (some l)
        · rw [if_neg h3]
          simp only [List.all_cons, Bool.and_eq_true]
          exact ⟨by simp [h1], ih inAuth bc (some l)⟩

theorem filterDrizzleLines_no_auth_decl (inAuth : Bool) (pc : Int)
    (ls : List String) :
    (filterDrizzleLines inAuth pc ls).all
      (fun l => !(drizzleAuthDecl l)) = true := by
  induction ls generalizing inAuth pc with
  | nil => rfl
  | cons l ls ih =>
    rw [filterDrizzleLines]
    by_cases h1 : (inAuth || drizzleAuthDecl l) = true
    · rw [if_pos h1]
      exact ih _ _
    · rw [if_neg h1]
      simp only [Bool.or_eq_true, not_or] at h1
      simp only [List.all_cons, Bool.and_eq_true]
      exact ⟨by simp [h1.2], ih inAuth pc⟩

theorem filterKyselyLines_no_auth_lines (inAuth : Bool) (ls : List String) :
    (filterKyselyLines inAuth ls).all
      (fun l => !(kyselyCreateAuth l) && !(kyselyAlterAuth l)
        && !(kyselyRefAuth l)) = true := by
  induction ls generalizing inAuth with
  | nil => rfl
  | cons l ls ih =>
    rw [filterKyselyLines]
    split
    · rename_i t hc
      split
      · exact ih _
      · rename_i h1
        split
        · exact ih _
        · rename_i h2
          split
          · exact ih _
          · rename_i h3
            simp only [List.all_cons, Bool.and_eq_true, Bool.not_eq_true']
            refine ⟨⟨⟨?_, by simpa using h2⟩, by simpa using h3⟩, ih _⟩
            simp [kyselyCreateAuth, hc, Bool.not_eq_true] at h1 ⊢
            exact h1
    · rename_i hc
      split
      · exact ih _
      · rename_i h0
        split
        · exact ih _
        · rename_i h2
          split
          · exact ih _
          · rename_i h3
            simp only [List.all_cons, Bool.and_eq_true, Bool.not_eq_true']
            refine ⟨⟨⟨?_, by simpa using h2⟩, by simpa using h3⟩, ih _⟩
            simp [kyselyCreateAuth, hc]

/-- C4 (amended): each filter removes every line that opens a reserved
declaration block as its own matcher recognizes it: the Prisma filter's
output has no model-declaration line whose name is exactly one of the
capitalized reserved model names; the Drizzle filter's output has no
export-const table-declaration line whose lowercased name is reserved;
the SQL filter's output has no line whose first CREATE TABLE target, first
ALTER TABLE target, or first REFERENCES target lowercases into the
reserved set.  (The Drizzle filter does not remove reference lines inside
other tables, the Prisma filter matches the reserved names
case-sensitively, and no filter matches the hyphenated name rate-limit —
see the counterexample.) -/
theorem c4_filters_remove_reserved_lines (code : String) :
    ((filterPrismaLines false 0 none (splitLines code)).all
        (fun l => !(prismaAuthDecl l)) = true)
    ∧ ((filterDrizzleLines false 0 (splitLines code)).all
        (fun l => !(drizzleAuthDecl l)) = true)
    ∧ ((filterKyselyLines false (splitLines code)).all
        (fun l => !(kyselyCreateAuth l) && !(kyselyAlterAuth l)
          && !(kyselyRefAuth l)) = true) :=
  ⟨filterPrismaLines_no_auth_decl false 0 none (splitLines code),
   filterDrizzleLines_no_auth_decl false 0 (splitLines code),
   filterKyselyLines_no_auth_lines false (splitLines code)⟩

/-- Counterexample to C4 as stated: the Drizzle filter keeps a reference
line to the reserved table user inside a non-reserved table; the Prisma
filter keeps a whole block named user in lowercase (its match is
case-sensitive on capitalized names); the SQL filter keeps a CREATE TABLE
block for the literally hyphenated name rate-limit. -/
theorem c4_counterexample :
    filterDrizzleAuthTables
        ("export const user = pgTable(\"user\", (\n));\nexport const post = pgTable(\"post\", (\n  userId: text().references(() => user.id),\n));")
      = "export const post = pgTable(\"post\", (\n  userId: text().references(() => user.id),\n));"
    ∧ hasSubstr ("references(() => user.id)")
        (filterDrizzleAuthTables
          ("export const user = pgTable(\"user\", (\n));\nexport const post = pgTable(\"post\", (\n  userId: text().references(() => user.id),\n));"))
      = true
    ∧ filterPrismaAuthTables
        ("model User \x7b\n  id String\n\x7d\n\nmodel user \x7b\n  id String\n\x7d")
      = "model user \x7b\n  id String\n\x7d"
    ∧ filterKyselyAuthTables ("CREATE TABLE \"rate-limit\" (id text);")
      = "CREATE TABLE \"rate-limit\" (id text);" := by
  refine ⟨?_, ?_, ?_, ?_⟩ <;> decide

end BetterDb
